import Mathlib

/-!
Verification of the NumBAT analysis layer (`backend/integration.py`).

The development shallowly embeds the two core functions of the file:
`gain_and_qs` (the SBS gain assembler) and `symmetries` (the mode-symmetry
classifier).  Complex field values are modelled as pairs of rationals
(`CC`), numpy arrays as total functions that are zero outside their extent
(matching `np.zeros` initialisation), and the external Fortran kernels
(`NumBAT.ac_alpha_int*`, `NumBAT.photoelastic_int*`, `NumBAT.moving_boundary`)
as oracle functions bundled in a `Kernels` record.  A `KeyboardInterrupt`
delivered during a kernel call is modelled by a boolean flag per call site;
the Python control flow after a caught interrupt (the interrupted local
variable stays unassigned, so its next use raises `UnboundLocalError`)
is modelled with `Except PyErr`.
-/

/-- Complex numbers with rational components; models the exact complex
arithmetic performed by `integration.py` on numpy complex arrays. -/
structure CC where
  re : ℚ
  im : ℚ
deriving DecidableEq

def CC.add (z w : CC) : CC := ⟨z.re + w.re, z.im + w.im⟩

def CC.neg (z : CC) : CC := ⟨-z.re, -z.im⟩

def CC.sub (z w : CC) : CC := ⟨z.re - w.re, z.im - w.im⟩

def CC.mul (z w : CC) : CC := ⟨z.re * w.re - z.im * w.im, z.re * w.im + z.im * w.re⟩

/-- Complex conjugation (`np.conj`). -/
def CC.conj (z : CC) : CC := ⟨z.re, -z.im⟩

/-- Complex division `z / w = z * conj w / |w|^2`. -/
def CC.div (z w : CC) : CC :=
  ⟨(z.re * w.re + z.im * w.im) / (w.re ^ 2 + w.im ^ 2),
   (z.im * w.re - z.re * w.im) / (w.re ^ 2 + w.im ^ 2)⟩

/-- Embeds a real scalar as a complex value. -/
def CC.ofQ (q : ℚ) : CC := ⟨q, 0⟩

instance : Zero CC := ⟨⟨0, 0⟩⟩

instance : One CC := ⟨⟨1, 0⟩⟩

instance : Add CC := ⟨CC.add⟩

instance : Neg CC := ⟨CC.neg⟩

instance : Sub CC := ⟨CC.sub⟩

instance : Mul CC := ⟨CC.mul⟩

instance : Div CC := ⟨CC.div⟩

@[ext] theorem CC.ext_components {z w : CC} (hre : z.re = w.re) (him : z.im = w.im) : z = w := by
  cases z; cases w; cases hre; cases him; rfl

@[simp] theorem CC.add_re (z w : CC) : (z + w).re = z.re + w.re := rfl

@[simp] theorem CC.add_im (z w : CC) : (z + w).im = z.im + w.im := rfl

@[simp] theorem CC.neg_re (z : CC) : (-z).re = -z.re := rfl

@[simp] theorem CC.neg_im (z : CC) : (-z).im = -z.im := rfl

@[simp] theorem CC.sub_re (z w : CC) : (z - w).re = z.re - w.re := rfl

@[simp] theorem CC.sub_im (z w : CC) : (z - w).im = z.im - w.im := rfl

@[simp] theorem CC.mul_re (z w : CC) : (z * w).re = z.re * w.re - z.im * w.im := rfl

@[simp] theorem CC.mul_im (z w : CC) : (z * w).im = z.re * w.im + z.im * w.re := rfl

@[simp] theorem CC.conj_re (z : CC) : z.conj.re = z.re := rfl

@[simp] theorem CC.conj_im (z : CC) : z.conj.im = -z.im := rfl

@[simp] theorem CC.div_re (z w : CC) :
    (z.div w).re = (z.re * w.re + z.im * w.im) / (w.re ^ 2 + w.im ^ 2) := rfl

@[simp] theorem CC.div_im (z w : CC) :
    (z.div w).im = (z.im * w.re - z.re * w.im) / (w.re ^ 2 + w.im ^ 2) := rfl

@[simp] theorem CC.ofQ_re (q : ℚ) : (CC.ofQ q).re = q := rfl

@[simp] theorem CC.ofQ_im (q : ℚ) : (CC.ofQ q).im = 0 := rfl

@[simp] theorem CC.zero_re : (0 : CC).re = 0 := rfl

@[simp] theorem CC.zero_im : (0 : CC).im = 0 := rfl

@[simp] theorem CC.one_re : (1 : CC).re = 1 := rfl

@[simp] theorem CC.one_im : (1 : CC).im = 0 := rfl

@[simp] theorem CC.mk_re (a b : ℚ) : (CC.mk a b).re = a := rfl

@[simp] theorem CC.mk_im (a b : ℚ) : (CC.mk a b).im = b := rfl

/-- A mode-selection argument of `gain_and_qs`: either the string `'All'`
or a zero-based integer mode index. -/
inductive IvalSel where
  | All : IvalSel
  | mode (i : ℕ) : IvalSel
deriving DecidableEq

/-- Conversion of a mode selector to the Fortran-side encoding
(`integration.py` lines 109-120): `'All'` becomes `-1`, an integer index
`i` becomes `i+1` ("convert back to Fortran indexing"). -/
def ival_fortran : IvalSel → ℤ
  | IvalSel.All => -1
  | IvalSel.mode i => (i : ℤ) + 1

/-- The data of an EM `Simmo` object that `gain_and_qs` reads
(`sim_EM_pump` / `sim_EM_Stokes`); the fields of the nested `structure`
attribute (`nb_typ_el`, the shape class of `inc_shape`) are flattened in. -/
structure SimEM where
  num_modes : ℕ
  sol1 : ℕ → ℕ → ℕ → ℕ → CC
  EM_mode_power : ℕ → CC
  omega_EM : ℚ
  nb_typ_el : ℕ
  n_list : ℕ → CC
  inc_shape_linear : Bool

/-- The data of the AC `Simmo` object that `gain_and_qs` reads
(mesh tables, tensors and the nested `structure` fields flattened in). -/
structure SimAC where
  num_modes : ℕ
  n_msh_el : ℕ
  n_msh_pts : ℕ
  el_convert_tbl : ℕ → ℕ
  typ_el_AC : List ℕ
  table_nod : ℕ → ℕ → ℕ
  type_el : ℕ → ℕ
  x_arr : ℕ → ℕ → ℚ
  nb_typ_el_AC : ℕ
  eta_tensor : ℕ → ℕ → ℕ → ℕ → CC
  p_tensor : ℕ → ℕ → ℕ → ℕ → CC
  Omega_AC : ℚ
  sol1 : ℕ → ℕ → ℕ → ℕ → CC
  AC_mode_power : ℕ → CC

/-- `ncomps = 3` in `gain_and_qs`. -/
def ncomps : ℕ := 3

/-- `nnodes = 6` in `gain_and_qs`. -/
def nnodes : ℕ := 6

/-- The trimmed EM field built by `gain_and_qs` (lines 129-138): a
`(ncomps, nnodes, num_modes, n_msh_el_AC)` complex array initialised by
`np.zeros` whose in-range entry `(x, n, ival, el)` is written once with
`sol1[x, n, ival, el_convert_tbl[el]]`. -/
def trimmedField (sol1 : ℕ → ℕ → ℕ → ℕ → CC) (el_convert_tbl : ℕ → ℕ)
    (num_modes n_msh_el_AC : ℕ) : ℕ → ℕ → ℕ → ℕ → CC :=
  fun x n ival el =>
    if x < ncomps ∧ n < nnodes ∧ ival < num_modes ∧ el < n_msh_el_AC then
      sol1 x n ival (el_convert_tbl el)
    else 0

/-- The `relevant_eps_effs` list built by `gain_and_qs` (lines 148-151):
loop `el_typ` over `range(nb_typ_el)` and append `n_list[el_typ]**2`
whenever `el_typ+1` is a member of `typ_el_AC`. -/
def relevant_eps_effs (nb_typ_el : ℕ) (typ_el_AC : List ℕ) (n_list : ℕ → CC) : List CC :=
  (List.range nb_typ_el).foldl
    (fun acc el_typ => if el_typ + 1 ∈ typ_el_AC then acc ++ [n_list el_typ * n_list el_typ] else acc)
    []

/-- The moving-boundary material selectors (lines 221-223):
`typ_select_in = 1`; `typ_select_out` is overridden to `2` when exactly two
relevant permittivities exist, else kept as supplied, else defaulted to the
`-1` sentinel. -/
def mb_typ_selects (relevant_eps : List CC) (typ_select_out : Option ℤ) : ℤ × ℤ :=
  (1,
   if relevant_eps.length = 2 then 2
   else match typ_select_out with
        | none => -1
        | some t => t)

/-- The `normal_fact` array (lines 248-255): a complex
`(num_modes_EM_Stokes, num_modes_EM_pump, num_modes_AC)` array whose entry
`(i, j, k)` is `EM_mode_power_Stokes[i] * EM_mode_power_pump[j] *
AC_mode_power[k] * alpha[k]`. -/
def normal_fact (nS nP nA : ℕ) (powS powP powA : ℕ → CC) (alpha : ℕ → ℚ) :
    ℕ → ℕ → ℕ → CC :=
  fun i j k =>
    if i < nS ∧ j < nP ∧ k < nA then
      powS i * powP j * powA k * CC.ofQ (alpha k)
    else 0

/-- Arguments passed to `NumBAT.ac_alpha_int_v2` / `NumBAT.ac_alpha_int`:
everything is a projection of `sim_AC` except `nnodes` and `k_AC`. -/
structure AcAlphaArgs where
  ac : SimAC
  nnodes : ℕ
  k_AC : ℚ

/-- Arguments passed to `NumBAT.photoelastic_int_v2` / `NumBAT.photoelastic_int`
(lines 194-213); the mesh tables and `p_tensor` are projections of `ac`. -/
structure PEArgs where
  num_modes_pump : ℕ
  num_modes_Stokes : ℕ
  num_modes_AC : ℕ
  ival_pump : ℤ
  ival_Stokes : ℤ
  ival_AC : ℤ
  ac : SimAC
  nnodes : ℕ
  k_AC : ℚ
  trimmed_EM_pump_field : ℕ → ℕ → ℕ → ℕ → CC
  trimmed_EM_Stokes_field : ℕ → ℕ → ℕ → ℕ → CC
  relevant_eps : List CC
  debug : ℕ

/-- Arguments passed to `NumBAT.moving_boundary` (lines 227-234); the mesh
tables are projections of `ac`; note no `k_AC` is passed. -/
structure MBArgs where
  num_modes_pump : ℕ
  num_modes_Stokes : ℕ
  num_modes_AC : ℕ
  ival_pump : ℤ
  ival_Stokes : ℤ
  ival_AC : ℤ
  ac : SimAC
  nnodes : ℕ
  typ_select_in : ℤ
  typ_select_out : ℤ
  trimmed_EM_pump_field : ℕ → ℕ → ℕ → ℕ → CC
  trimmed_EM_Stokes_field : ℕ → ℕ → ℕ → ℕ → CC
  relevant_eps : List CC
  debug : ℕ

/-- The external Fortran kernel module (`from fortran import NumBAT`),
modelled as oracle functions. -/
structure Kernels where
  ac_alpha_int_v2 : AcAlphaArgs → (ℕ → CC)
  ac_alpha_int : AcAlphaArgs → (ℕ → CC)
  photoelastic_int_v2 : PEArgs → (ℕ → ℕ → ℕ → CC)
  photoelastic_int : PEArgs → (ℕ → ℕ → ℕ → CC)
  moving_boundary : MBArgs → (ℕ → ℕ → ℕ → CC)

def acArgsOf (ac : SimAC) (k_AC : ℚ) : AcAlphaArgs := ⟨ac, nnodes, k_AC⟩

def peArgsOf (pump Stokes : SimEM) (ac : SimAC) (k_AC : ℚ)
    (ivpF ivsF ivaF : ℤ) : PEArgs :=
  ⟨pump.num_modes, Stokes.num_modes, ac.num_modes, ivpF, ivsF, ivaF, ac, nnodes, k_AC,
   trimmedField pump.sol1 ac.el_convert_tbl pump.num_modes ac.n_msh_el,
   trimmedField Stokes.sol1 ac.el_convert_tbl Stokes.num_modes ac.n_msh_el,
   relevant_eps_effs pump.nb_typ_el ac.typ_el_AC pump.n_list, 0⟩

def mbArgsOf (pump Stokes : SimEM) (ac : SimAC)
    (ivpF ivsF ivaF tin tout : ℤ) : MBArgs :=
  ⟨pump.num_modes, Stokes.num_modes, ac.num_modes, ivpF, ivsF, ivaF, ac, nnodes, tin, tout,
   trimmedField pump.sol1 ac.el_convert_tbl pump.num_modes ac.n_msh_el,
   trimmedField Stokes.sol1 ac.el_convert_tbl Stokes.num_modes ac.n_msh_el,
   relevant_eps_effs pump.nb_typ_el ac.typ_el_AC pump.n_list, 0⟩

/-- A Python runtime error surfaced by `gain_and_qs`: referencing a local
variable that was never assigned (because the `try` block that would have
assigned it was aborted by a caught `KeyboardInterrupt`). -/
inductive PyErr where
  | unboundLocal (varname : String) : PyErr
deriving DecidableEq

/-- The tuple returned by `gain_and_qs` (line 260). -/
structure GainOut where
  SBS_gain : ℕ → ℕ → ℕ → ℚ
  SBS_gain_PE : ℕ → ℕ → ℕ → ℚ
  SBS_gain_MB : ℕ → ℕ → ℕ → ℚ
  alpha : ℕ → ℚ
  Q_factors : ℕ → ℚ

/-- Log message printed by the `except KeyboardInterrupt` handler of the
acoustic-loss call (line 177). -/
def msgAC : String := "Routine ac_alpha_int interrupted by keyboard."

/-- Log message printed by the handler of the photoelastic call (line 215). -/
def msgPE : String := "Routine photoelastic_int interrupted by keyboard."

/-- Log message printed by the handler of the moving-boundary call (line 236). -/
def msgMB : String := "Routine moving_boundary interrupted by keyboard."

/-- The tail of `gain_and_qs` after the acoustic-loss step (lines 189-260):
photoelastic call, moving-boundary call, gain tensors and normalization.
`intPE` / `intMB` flag a `KeyboardInterrupt` delivered during the
respective kernel call; the handler logs and execution continues, leaving
`Q_PE` / `Q_MB` unassigned, so `Q = Q_PE + Q_MB` (line 241) raises
`UnboundLocalError` on whichever name is evaluated first. -/
def gain_rest (kern : Kernels) (pump Stokes : SimEM) (ac : SimAC) (k_AC : ℚ)
    (ivpF ivsF ivaF : ℤ) (typ_select_out : Option ℤ) (intPE intMB : Bool)
    (alpha Q_factors : ℕ → ℚ) : List String × Except PyErr GainOut :=
  let Q_PE : Option (ℕ → ℕ → ℕ → CC) :=
    if intPE then none
    else some ((if pump.inc_shape_linear then kern.photoelastic_int_v2 else kern.photoelastic_int)
      (peArgsOf pump Stokes ac k_AC ivpF ivsF ivaF))
  let eps := relevant_eps_effs pump.nb_typ_el ac.typ_el_AC pump.n_list
  let tsel := mb_typ_selects eps typ_select_out
  let Q_MB : Option (ℕ → ℕ → ℕ → CC) :=
    if intMB then none
    else some (kern.moving_boundary (mbArgsOf pump Stokes ac ivpF ivsF ivaF tsel.1 tsel.2))
  let log := (if intPE then [msgPE] else []) ++ (if intMB then [msgMB] else [])
  match Q_PE, Q_MB with
  | none, _ => (log, Except.error (PyErr.unboundLocal "Q_PE"))
  | some _, none => (log, Except.error (PyErr.unboundLocal "Q_MB"))
  | some qpe, some qmb =>
    let Q : ℕ → ℕ → ℕ → CC := fun i j k => qpe i j k + qmb i j k
    let gain : ℕ → ℕ → ℕ → ℚ :=
      fun i j k => 2 * pump.omega_EM * ac.Omega_AC * (Q i j k * (Q i j k).conj).re
    let gain_PE : ℕ → ℕ → ℕ → ℚ :=
      fun i j k => 2 * pump.omega_EM * ac.Omega_AC * (qpe i j k * (qpe i j k).conj).re
    let gain_MB : ℕ → ℕ → ℕ → ℚ :=
      fun i j k => 2 * pump.omega_EM * ac.Omega_AC * (qmb i j k * (qmb i j k).conj).re
    let nf := normal_fact Stokes.num_modes pump.num_modes ac.num_modes
      Stokes.EM_mode_power pump.EM_mode_power ac.AC_mode_power alpha
    (log, Except.ok
      { SBS_gain := fun i j k => (CC.div (CC.ofQ (gain i j k)) (nf i j k)).re
        SBS_gain_PE := fun i j k => (CC.div (CC.ofQ (gain_PE i j k)) (nf i j k)).re
        SBS_gain_MB := fun i j k => (CC.div (CC.ofQ (gain_MB i j k)) (nf i j k)).re
        alpha := alpha
        Q_factors := Q_factors })

/-- Shallow embedding of `gain_and_qs` (lines 21-260).  `intAC`, `intPE`,
`intMB` model a `KeyboardInterrupt` delivered during the corresponding
kernel call; the first component of the result collects the messages
printed by the `except KeyboardInterrupt` handlers. -/
def gainAndQs (kern : Kernels) (pump Stokes : SimEM) (ac : SimAC) (k_AC : ℚ)
    (EM_ival_pump EM_ival_Stokes AC_ival : IvalSel)
    (fixed_Q : Option ℚ) (typ_select_out : Option ℤ)
    (intAC intPE intMB : Bool) : List String × Except PyErr GainOut :=
  let ivpF := ival_fortran EM_ival_pump
  let ivsF := ival_fortran EM_ival_Stokes
  let ivaF := ival_fortran AC_ival
  match fixed_Q with
  | none =>
    -- acoustic-loss kernel path; an interrupt leaves `alpha` unassigned and
    -- the very next line `alpha = np.real(alpha)` (line 178) raises
    if intAC then ([msgAC], Except.error (PyErr.unboundLocal "alpha"))
    else
      let alphaC := (if pump.inc_shape_linear then kern.ac_alpha_int_v2 else kern.ac_alpha_int)
        (acArgsOf ac k_AC)
      let alpha : ℕ → ℚ := fun k => if k < ac.num_modes then (alphaC k).re else 0
      let Qf : ℕ → ℚ := fun k => if k < ac.num_modes then (1/2) * (k_AC / alpha k) else 0
      gain_rest kern pump Stokes ac k_AC ivpF ivsF ivaF typ_select_out intPE intMB alpha Qf
  | some q =>
      -- fixed-Q path (lines 182-186): alpha = 0.5*(k_AC/fixed_Q)*np.ones(n),
      -- Q_factors = fixed_Q*np.ones(n); the kernel is not called
      let alpha : ℕ → ℚ := fun k => if k < ac.num_modes then (1/2) * (k_AC / q) else 0
      let Qf : ℕ → ℚ := fun k => if k < ac.num_modes then q else 0
      gain_rest kern pump Stokes ac k_AC ivpF ivsF ivaF typ_select_out intPE intMB alpha Qf

/-!
The `symmetries` classifier (lines 264-486).  The mode-field interpolation
itself (matplotlib triangulations, lines 277-362) is the external
interpolator; its per-mode output is a pair of complex grids `m_Ex`, `m_Ey`
of extents `n_pts_x × n_pts_y`, masked (data `nan`) at grid points outside
the triangulated mesh.  We embed the masked grids as `ℕ → ℕ → Option CC`
(`none` = masked / out-of-mesh point) and the classifier stage from the
negligible-magnitude check (line 364) to the returned label triples
(line 423), following numpy masked-array semantics: selecting by
`~np.isnan` keeps exactly the unmasked entries; arithmetic on a masked
array keeps its mask; `np.sum` of a masked array skips masked entries;
reading a masked element yields the masked constant, whose payload stores
as `0` when assigned into the plain `np.zeros` mirror arrays. -/

/-- A masked interpolated grid: `none` marks a grid point outside the
triangulated mesh domain. -/
def MGrid : Type := ℕ → ℕ → Option CC

/-- The complex magnitude `np.abs` of a grid value. -/
noncomputable def CC.cabs (z : CC) : ℝ := Real.sqrt ((z.re : ℝ) ^ 2 + (z.im : ℝ) ^ 2)

/-- The flattened selection `m[~np.isnan(m)]`: the in-mesh values of the
grid, in row-major order. -/
def definedVals (Nx Ny : ℕ) (g : MGrid) : List CC :=
  (List.range Nx).flatMap (fun ix => (List.range Ny).filterMap (fun iy => g ix iy))

/-- `np.max(np.abs(m[~np.isnan(m)]))` (lines 364, 366): the maximum
magnitude over in-mesh grid points (computed as a fold from `0`, which
agrees with the numpy maximum since magnitudes are nonnegative). -/
noncomputable def maxAbsDefined (Nx Ny : ℕ) (g : MGrid) : ℝ :=
  ((definedVals Nx Ny g).map CC.cabs).foldl max 0

/-- The negligible-magnitude zeroing (lines 364-367): if the maximal
in-mesh magnitude is below the threshold the component is replaced by
`np.zeros(np.shape(m))`, a plain all-zero (hence fully defined) grid. -/
noncomputable def zeroIfNegligible (thr : ℝ) (Nx Ny : ℕ) (g : MGrid) : MGrid :=
  if maxAbsDefined Nx Ny g < thr then (fun _ _ => some 0) else g

/-- `m_Ex_ymirror` (line 386): plain complex array; a masked source entry
stores the masked constant payload `0`. -/
def m_Ex_ymirror (Nx Ny : ℕ) (gx : MGrid) : ℕ → ℕ → CC :=
  fun ix iy => if ix < Nx ∧ iy < Ny then (gx ix (Ny - iy - 1)).getD 0 else 0

/-- `m_Ey_ymirror` (line 387): the y-component is negated under y-mirror. -/
def m_Ey_ymirror (Nx Ny : ℕ) (gy : MGrid) : ℕ → ℕ → CC :=
  fun ix iy => if ix < Nx ∧ iy < Ny then -((gy ix (Ny - iy - 1)).getD 0) else 0

/-- `m_Ex_xmirror` (line 388): the x-component is negated under x-mirror. -/
def m_Ex_xmirror (Nx Ny : ℕ) (gx : MGrid) : ℕ → ℕ → CC :=
  fun ix iy => if ix < Nx ∧ iy < Ny then -((gx (Nx - ix - 1) iy).getD 0) else 0

/-- `m_Ey_xmirror` (line 389). -/
def m_Ey_xmirror (Nx Ny : ℕ) (gy : MGrid) : ℕ → ℕ → CC :=
  fun ix iy => if ix < Nx ∧ iy < Ny then (gy (Nx - ix - 1) iy).getD 0 else 0

/-- `m_Ex_rotated` (line 390): 180-degree rotation, both components negated. -/
def m_Ex_rotated (Nx Ny : ℕ) (gx : MGrid) : ℕ → ℕ → CC :=
  fun ix iy => if ix < Nx ∧ iy < Ny then -((gx (Nx - ix - 1) (Ny - iy - 1)).getD 0) else 0

/-- `m_Ey_rotated` (line 391). -/
def m_Ey_rotated (Nx Ny : ℕ) (gy : MGrid) : ℕ → ℕ → CC :=
  fun ix iy => if ix < Nx ∧ iy < Ny then -((gy (Nx - ix - 1) (Ny - iy - 1)).getD 0) else 0

/-- `np.sum(np.abs(m - m_transformed))` (lines 393-398) under masked-array
semantics: the difference keeps the mask of `m`, and the masked sum skips
masked (out-of-mesh) entries. -/
noncomputable def maskedAbsDiffSum (Nx Ny : ℕ) (g : MGrid) (t : ℕ → ℕ → CC) : ℝ :=
  ∑ ix ∈ Finset.range Nx, ∑ iy ∈ Finset.range Ny,
    match g ix iy with
    | none => 0
    | some z => (z - t ix iy).cabs

/-- `sigma_y` (line 399): y-mirror discrepancy score. -/
noncomputable def sigma_y (Nx Ny : ℕ) (gx gy : MGrid) : ℝ :=
  (maskedAbsDiffSum Nx Ny gx (m_Ex_ymirror Nx Ny gx) +
   maskedAbsDiffSum Nx Ny gy (m_Ey_ymirror Nx Ny gy)) / (Nx * Ny)

/-- `sigma_x` (line 400): x-mirror discrepancy score. -/
noncomputable def sigma_x (Nx Ny : ℕ) (gx gy : MGrid) : ℝ :=
  (maskedAbsDiffSum Nx Ny gx (m_Ex_xmirror Nx Ny gx) +
   maskedAbsDiffSum Nx Ny gy (m_Ey_xmirror Nx Ny gy)) / (Nx * Ny)

/-- `C_2` (line 401): 180-degree-rotation discrepancy score. -/
noncomputable def C_2 (Nx Ny : ℕ) (gx gy : MGrid) : ℝ :=
  (maskedAbsDiffSum Nx Ny gx (m_Ex_rotated Nx Ny gx) +
   maskedAbsDiffSum Nx Ny gy (m_Ey_rotated Nx Ny gy)) / (Nx * Ny)

/-- The per-mode classifier body of `symmetries` (lines 361-423): negligible
zeroing, the three scores, thresholding (`0.2` for rotation, `0.1` for each
mirror) and the appended label list `[C_2_print, sigma_y_print,
sigma_x_print]`. -/
noncomputable def modeSymmetry (thr : ℝ) (Nx Ny : ℕ) (gx gy : MGrid) : List ℤ :=
  [if (1/5 : ℝ) < |C_2 Nx Ny (zeroIfNegligible thr Nx Ny gx) (zeroIfNegligible thr Nx Ny gy)|
     then (-1 : ℤ) else 1,
   if (1/10 : ℝ) < |sigma_y Nx Ny (zeroIfNegligible thr Nx Ny gx) (zeroIfNegligible thr Nx Ny gy)|
     then (-1 : ℤ) else 1,
   if (1/10 : ℝ) < |sigma_x Nx Ny (zeroIfNegligible thr Nx Ny gx) (zeroIfNegligible thr Nx Ny gy)|
     then (-1 : ℤ) else 1]

/-- `symmetries` over the per-mode interpolated grids: the returned
`sym_list` has one label triple per mode, in mode order. -/
noncomputable def symmetries (thr : ℝ) (Nx Ny : ℕ) (modes : List (MGrid × MGrid)) :
    List (List ℤ) :=
  modes.map (fun p => modeSymmetry thr Nx Ny p.1 p.2)

/-!
Concrete fixtures used by witnesses and counterexamples.
-/

/-- A one-mode EM simulation object with unit power and unit frequency. -/
def exEM : SimEM :=
  { num_modes := 1, sol1 := fun _ _ _ _ => 0, EM_mode_power := fun _ => 1,
    omega_EM := 1, nb_typ_el := 1, n_list := fun _ => 1, inc_shape_linear := true }

/-- A one-mode AC simulation object with unit power and unit frequency. -/
def exAC : SimAC :=
  { num_modes := 1, n_msh_el := 1, n_msh_pts := 1, el_convert_tbl := fun e => e,
    typ_el_AC := [1], table_nod := fun _ _ => 0, type_el := fun _ => 0,
    x_arr := fun _ _ => 0, nb_typ_el_AC := 1, eta_tensor := fun _ _ _ _ => 0,
    p_tensor := fun _ _ _ _ => 0, Omega_AC := 1, sol1 := fun _ _ _ _ => 0,
    AC_mode_power := fun _ => 1 }

/-- The AC fixture with a non-physical zero mode power. -/
def exAC0 : SimAC := { exAC with AC_mode_power := fun _ => 0 }

/-- A kernel oracle returning the constant overlap `1` everywhere. -/
def exKern : Kernels :=
  { ac_alpha_int_v2 := fun _ _ => 1, ac_alpha_int := fun _ _ => 1,
    photoelastic_int_v2 := fun _ _ _ _ => 1, photoelastic_int := fun _ _ _ _ => 1,
    moving_boundary := fun _ _ _ _ => 1 }

/-- Unrolling an accumulate-if-member loop into filter-and-map form. -/
theorem foldl_filter_append {α β : Type} (p : α → Prop) [DecidablePred p] (f : α → β) :
    ∀ (l : List α) (acc : List β),
      l.foldl (fun a t => if p t then a ++ [f t] else a) acc
        = acc ++ (l.filter (fun t => decide (p t))).map f := by
  intro l
  induction l with
  | nil => intro acc; simp
  | cons h tl ih => intro acc; by_cases hp : p h <;> simp [hp, ih]

/-- C8: the relevant-permittivity list built by `gain_and_qs` consists
exactly of the squared refractive indices `n_list[t]**2` of those material
types `t`, in the EM domain's original enumeration order, whose 1-based
type index `t+1` is a member of `typ_el_AC`. -/
theorem relevant_eps_effs_spec (nb_typ_el : ℕ) (typ_el_AC : List ℕ) (n_list : ℕ → CC) :
    relevant_eps_effs nb_typ_el typ_el_AC n_list
      = ((List.range nb_typ_el).filter (fun t => decide (t + 1 ∈ typ_el_AC))).map
          (fun t => n_list t * n_list t) := by
  unfold relevant_eps_effs
  simpa using foldl_filter_append (fun t => t + 1 ∈ typ_el_AC)
    (fun t => n_list t * n_list t) (List.range nb_typ_el) []

/-- C3: for every valid element map, the trimmed field array built by
`gain_and_qs` has shape `[3, 6, num_modes, n_msh_el_AC]`, keeps the complex
values and every mode index, and its entry `(x, n, ival, el)` equals
`em_field[x, n, ival, el_convert_tbl[el]]`. -/
theorem trimmedField_spec (sol1 : ℕ → ℕ → ℕ → ℕ → CC) (el_convert_tbl : ℕ → ℕ)
    (num_modes n_msh_el_AC x n ival el : ℕ)
    (hx : x < 3) (hn : n < 6) (hi : ival < num_modes) (he : el < n_msh_el_AC) :
    trimmedField sol1 el_convert_tbl num_modes n_msh_el_AC x n ival el
      = sol1 x n ival (el_convert_tbl el) := by
  unfold trimmedField
  exact if_pos ⟨hx, hn, hi, he⟩

theorem trimmedField_spec_witness :
    ((1 : ℕ) < 3 ∧ (2 : ℕ) < 6 ∧ (1 : ℕ) < 2 ∧ (2 : ℕ) < 3) ∧
      trimmedField (fun _ _ _ e => CC.ofQ e) (fun e => e + 7) 2 3 1 2 1 2 = CC.ofQ 9 :=
  ⟨⟨by decide, by decide, by decide, by decide⟩,
   (trimmedField_spec (fun _ _ _ e => CC.ofQ e) (fun e => e + 7) 2 3 1 2 1 2
      (by decide) (by decide) (by decide) (by decide)).trans (by decide)⟩

/-- C9: the moving-boundary inner selector is always `1` (the first entry
of the relevant-permittivity list in Fortran indexing); the outer selector
is `2` whenever exactly two relevant materials exist (overriding any
supplied `typ_select_out`), else the supplied selector when given, else the
`-1` all-other-materials sentinel. -/
theorem mb_typ_selects_spec (relevant_eps : List CC) (typ_select_out : Option ℤ) :
    (mb_typ_selects relevant_eps typ_select_out).1 = 1 ∧
    (relevant_eps.length = 2 → (mb_typ_selects relevant_eps typ_select_out).2 = 2) ∧
    (relevant_eps.length ≠ 2 →
      ∀ t, typ_select_out = some t → (mb_typ_selects relevant_eps typ_select_out).2 = t) ∧
    (relevant_eps.length ≠ 2 →
      typ_select_out = none → (mb_typ_selects relevant_eps typ_select_out).2 = -1) := by
  refine ⟨rfl, fun h => ?_, fun h t ht => ?_, fun h hn => ?_⟩
  · simp [mb_typ_selects, h]
  · simp [mb_typ_selects, h, ht]
  · simp [mb_typ_selects, h, hn]

theorem mb_typ_selects_spec_witness :
    ([(1 : CC), ⟨2, 0⟩] : List CC).length = 2 ∧
    (mb_typ_selects [(1 : CC), ⟨2, 0⟩] (some 7)).1 = 1 ∧
    (mb_typ_selects [(1 : CC), ⟨2, 0⟩] (some 7)).2 = 2 :=
  ⟨by decide, (mb_typ_selects_spec [(1 : CC), ⟨2, 0⟩] (some 7)).1,
   (mb_typ_selects_spec [(1 : CC), ⟨2, 0⟩] (some 7)).2.1 (by decide)⟩

/-- Congruence for the tail of `gain_and_qs`: two kernel modules that agree
at the photoelastic and moving-boundary argument records actually built by
the assembler produce the same tail result. -/
theorem gain_rest_ext (kern kern' : Kernels) (pump Stokes : SimEM) (ac : SimAC)
    (k_AC : ℚ) (ivpF ivsF ivaF : ℤ) (tso : Option ℤ) (intPE intMB : Bool)
    (alpha Qf : ℕ → ℚ)
    (h3 : kern.photoelastic_int_v2 (peArgsOf pump Stokes ac k_AC ivpF ivsF ivaF)
        = kern'.photoelastic_int_v2 (peArgsOf pump Stokes ac k_AC ivpF ivsF ivaF))
    (h4 : kern.photoelastic_int (peArgsOf pump Stokes ac k_AC ivpF ivsF ivaF)
        = kern'.photoelastic_int (peArgsOf pump Stokes ac k_AC ivpF ivsF ivaF))
    (h5 : kern.moving_boundary (mbArgsOf pump Stokes ac ivpF ivsF ivaF
            (mb_typ_selects (relevant_eps_effs pump.nb_typ_el ac.typ_el_AC pump.n_list) tso).1
            (mb_typ_selects (relevant_eps_effs pump.nb_typ_el ac.typ_el_AC pump.n_list) tso).2)
        = kern'.moving_boundary (mbArgsOf pump Stokes ac ivpF ivsF ivaF
            (mb_typ_selects (relevant_eps_effs pump.nb_typ_el ac.typ_el_AC pump.n_list) tso).1
            (mb_typ_selects (relevant_eps_effs pump.nb_typ_el ac.typ_el_AC pump.n_list) tso).2)) :
    gain_rest kern pump Stokes ac k_AC ivpF ivsF ivaF tso intPE intMB alpha Qf
      = gain_rest kern' pump Stokes ac k_AC ivpF ivsF ivaF tso intPE intMB alpha Qf := by
  unfold gain_rest
  dsimp only
  cases hlin : pump.inc_shape_linear
  · rw [if_neg Bool.false_ne_true, h4, h5]; rfl
  · rw [if_pos rfl, h3, h5]; rfl

/-- C10: every mode-selection argument is forwarded to the kernels in the
Fortran encoding: the sentinel `-1` exactly for `'All'`, and the zero-based
index plus one otherwise; the kernels are only ever consulted at argument
records carrying exactly this encoding. -/
theorem ival_fortran_spec :
    (∀ i : ℕ, ival_fortran (IvalSel.mode i) = (i : ℤ) + 1) ∧
    (∀ s : IvalSel, ival_fortran s = -1 ↔ s = IvalSel.All) ∧
    (∀ (kern kern' : Kernels) (pump Stokes : SimEM) (ac : SimAC) (k_AC : ℚ)
       (p s a : IvalSel) (fq : Option ℚ) (tso : Option ℤ) (iAC iPE iMB : Bool),
       kern.ac_alpha_int_v2 = kern'.ac_alpha_int_v2 →
       kern.ac_alpha_int = kern'.ac_alpha_int →
       (∀ ar : PEArgs, ar.ival_pump = ival_fortran p → ar.ival_Stokes = ival_fortran s →
          ar.ival_AC = ival_fortran a →
          kern.photoelastic_int_v2 ar = kern'.photoelastic_int_v2 ar) →
       (∀ ar : PEArgs, ar.ival_pump = ival_fortran p → ar.ival_Stokes = ival_fortran s →
          ar.ival_AC = ival_fortran a →
          kern.photoelastic_int ar = kern'.photoelastic_int ar) →
       (∀ ar : MBArgs, ar.ival_pump = ival_fortran p → ar.ival_Stokes = ival_fortran s →
          ar.ival_AC = ival_fortran a →
          kern.moving_boundary ar = kern'.moving_boundary ar) →
       gainAndQs kern pump Stokes ac k_AC p s a fq tso iAC iPE iMB
         = gainAndQs kern' pump Stokes ac k_AC p s a fq tso iAC iPE iMB) := by
  refine ⟨fun i => rfl, fun s => ?_, ?_⟩
  · cases s with
    | All => simp [ival_fortran]
    | mode i => simp [ival_fortran]; omega
  · intro kern kern' pump Stokes ac k_AC p s a fq tso iAC iPE iMB h1 h2 h3 h4 h5
    have e3 := h3 (peArgsOf pump Stokes ac k_AC (ival_fortran p) (ival_fortran s) (ival_fortran a))
      rfl rfl rfl
    have e4 := h4 (peArgsOf pump Stokes ac k_AC (ival_fortran p) (ival_fortran s) (ival_fortran a))
      rfl rfl rfl
    have e5 := h5 (mbArgsOf pump Stokes ac (ival_fortran p) (ival_fortran s) (ival_fortran a)
      (mb_typ_selects (relevant_eps_effs pump.nb_typ_el ac.typ_el_AC pump.n_list) tso).1
      (mb_typ_selects (relevant_eps_effs pump.nb_typ_el ac.typ_el_AC pump.n_list) tso).2)
      rfl rfl rfl
    cases fq with
    | none =>
      cases iAC with
      | true => rfl
      | false =>
        unfold gainAndQs
        rw [h1, h2]
        exact gain_rest_ext kern kern' pump Stokes ac k_AC _ _ _ tso iPE iMB _ _ e3 e4 e5
    | some q =>
      unfold gainAndQs
      exact gain_rest_ext kern kern' pump Stokes ac k_AC _ _ _ tso iPE iMB _ _ e3 e4 e5

theorem ival_fortran_spec_witness :
    ival_fortran (IvalSel.mode 3) = 4 ∧
    (ival_fortran IvalSel.All = -1 ↔ IvalSel.All = IvalSel.All) ∧
    gainAndQs exKern exEM exEM exAC 1 IvalSel.All (IvalSel.mode 0) (IvalSel.mode 2)
        (some 500) none false false false
      = gainAndQs exKern exEM exEM exAC 1 IvalSel.All (IvalSel.mode 0) (IvalSel.mode 2)
        (some 500) none false false false :=
  ⟨(ival_fortran_spec.1 3).trans (by decide),
   ival_fortran_spec.2.1 IvalSel.All,
   ival_fortran_spec.2.2 exKern exKern exEM exEM exAC 1 IvalSel.All (IvalSel.mode 0)
     (IvalSel.mode 2) (some 500) none false false false rfl rfl
     (fun _ _ _ _ => rfl) (fun _ _ _ _ => rfl) (fun _ _ _ _ => rfl)⟩

/-- C6 (amended): a `KeyboardInterrupt` during a kernel call is caught and
logged at that call site only, and execution continues past the handler;
but the interrupted quantity's local variable is left unassigned, so the
function subsequently raises an unbound-local error (`alpha` at the
`alpha = np.real(alpha)` line, `Q_PE`/`Q_MB` at `Q = Q_PE + Q_MB`) instead
of returning gain tensors. -/
theorem gainAndQs_interrupt_spec (kern : Kernels) (pump Stokes : SimEM) (ac : SimAC)
    (k_AC : ℚ) (p s a : IvalSel) (tso : Option ℤ) :
    (∀ iPE iMB : Bool,
      gainAndQs kern pump Stokes ac k_AC p s a none tso true iPE iMB
        = ([msgAC], Except.error (PyErr.unboundLocal "alpha"))) ∧
    (∀ (fq : Option ℚ) (iMB : Bool),
      gainAndQs kern pump Stokes ac k_AC p s a fq tso false true iMB
        = (msgPE :: (if iMB then [msgMB] else []), Except.error (PyErr.unboundLocal "Q_PE"))) ∧
    (∀ fq : Option ℚ,
      gainAndQs kern pump Stokes ac k_AC p s a fq tso false false true
        = ([msgMB], Except.error (PyErr.unboundLocal "Q_MB"))) :=
  ⟨fun _ _ => rfl,
   fun fq iMB => by cases fq <;> rfl,
   fun fq => by cases fq <;> rfl⟩

/-- C6, claim as stated is false: with an interrupt during the photoelastic
kernel call, `gain_and_qs` does not continue to a returned result; it ends
in an unbound-local error on `Q_PE`. -/
theorem gainAndQs_interrupt_counterexample :
    (gainAndQs exKern exEM exEM exAC 1 (IvalSel.mode 0) (IvalSel.mode 0) (IvalSel.mode 0)
        (some 1) none false true false).2
      = Except.error (PyErr.unboundLocal "Q_PE") ∧
    ∀ out : GainOut,
      (gainAndQs exKern exEM exEM exAC 1 (IvalSel.mode 0) (IvalSel.mode 0) (IvalSel.mode 0)
        (some 1) none false true false).2 ≠ Except.ok out :=
  ⟨rfl, fun _ h => Except.noConfusion h⟩

/-- C7: with a zero acoustic mode power, `gain_and_qs` raises no
"non-physical mode" error (it has no such check): the call returns
normally while the normalization factor at the offending mode vanishes,
so the gain division is performed with a zero denominator. -/
theorem gainAndQs_zero_power_no_error :
    ∃ out : GainOut,
      (gainAndQs exKern exEM exEM exAC0 1 (IvalSel.mode 0) (IvalSel.mode 0) (IvalSel.mode 0)
        (some (1/2)) none false false false).2 = Except.ok out ∧
      out.alpha 0 = 1 ∧
      normal_fact 1 1 1 exEM.EM_mode_power exEM.EM_mode_power exAC0.AC_mode_power
        out.alpha 0 0 0 = 0 := by
  refine ⟨_, rfl, ?_, ?_⟩
  · show (if (0 : ℕ) < exAC0.num_modes then (1/2 : ℚ) * (1 / (1/2)) else 0) = 1
    norm_num [exAC0, exAC]
  · refine CC.ext_components ?_ ?_ <;> norm_num [normal_fact, exEM, exAC0, exAC]

/-- C2: with a supplied `fixed_Q` the acoustic-loss kernel is never
consulted (and no interrupt can occur at that site), `alpha` is
`0.5*k_AC/fixed_Q` and `Q_factors` is `fixed_Q` broadcast over all
`num_modes_AC` entries; with `fixed_Q = None` the kernel's complex
per-mode integral is computed, `alpha` is its real part and
`Q_factors[k] = 0.5*(k_AC/alpha[k])` for every acoustic mode `k`. -/
theorem gainAndQs_alpha_Q_spec (kern kern' : Kernels) (pump Stokes : SimEM) (ac : SimAC)
    (k_AC q : ℚ) (p s a : IvalSel) (tso : Option ℤ) (iAC iAC' : Bool) :
    (kern.photoelastic_int_v2 = kern'.photoelastic_int_v2 →
     kern.photoelastic_int = kern'.photoelastic_int →
     kern.moving_boundary = kern'.moving_boundary →
     ∀ iPE iMB : Bool,
       gainAndQs kern pump Stokes ac k_AC p s a (some q) tso iAC iPE iMB
         = gainAndQs kern' pump Stokes ac k_AC p s a (some q) tso iAC' iPE iMB) ∧
    (∃ out, (gainAndQs kern pump Stokes ac k_AC p s a (some q) tso iAC false false).2
        = Except.ok out ∧
      ∀ k, k < ac.num_modes → out.alpha k = (1/2) * (k_AC / q) ∧ out.Q_factors k = q) ∧
    (∃ out, (gainAndQs kern pump Stokes ac k_AC p s a none tso false false false).2
        = Except.ok out ∧
      ∀ k, k < ac.num_modes →
        out.alpha k
          = (((if pump.inc_shape_linear then kern.ac_alpha_int_v2 else kern.ac_alpha_int)
              (acArgsOf ac k_AC)) k).re ∧
        out.Q_factors k = (1/2) * (k_AC / out.alpha k)) := by
  refine ⟨?_, ?_, ?_⟩
  · intro h3 h4 h5 iPE iMB
    unfold gainAndQs
    exact gain_rest_ext kern kern' pump Stokes ac k_AC _ _ _ tso iPE iMB _ _
      (by rw [h3]) (by rw [h4]) (by rw [h5])
  · refine ⟨_, rfl, fun k hk => ⟨?_, ?_⟩⟩ <;> simp [hk]
  · refine ⟨_, rfl, fun k hk => ⟨?_, ?_⟩⟩ <;> simp [hk]

/-- A three-acoustic-mode variant of the AC fixture. -/
def exAC3 : SimAC := { exAC with num_modes := 3 }

theorem gainAndQs_alpha_Q_spec_witness :
    ∃ out, (gainAndQs exKern exEM exEM exAC3 10000000 (IvalSel.mode 0) (IvalSel.mode 0)
        (IvalSel.mode 0) (some 500) none false false false).2 = Except.ok out ∧
      (out.alpha 0 = 10000 ∧ out.alpha 1 = 10000 ∧ out.alpha 2 = 10000) ∧
      (out.Q_factors 0 = 500 ∧ out.Q_factors 1 = 500 ∧ out.Q_factors 2 = 500) := by
  obtain ⟨out, h1, h2⟩ := (gainAndQs_alpha_Q_spec exKern exKern exEM exEM exAC3 10000000 500
    (IvalSel.mode 0) (IvalSel.mode 0) (IvalSel.mode 0) none false false).2.1
  have m0 : (0 : ℕ) < exAC3.num_modes := by norm_num [exAC3, exAC]
  have m1 : (1 : ℕ) < exAC3.num_modes := by norm_num [exAC3, exAC]
  have m2 : (2 : ℕ) < exAC3.num_modes := by norm_num [exAC3, exAC]
  refine ⟨out, h1, ⟨?_, ?_, ?_⟩, ?_, ?_, ?_⟩
  · exact (h2 0 m0).1.trans (by norm_num)
  · exact (h2 1 m1).1.trans (by norm_num)
  · exact (h2 2 m2).1.trans (by norm_num)
  · exact (h2 0 m0).2
  · exact (h2 1 m1).2
  · exact (h2 2 m2).2

/-- The photoelastic overlap as computed inside `gain_and_qs`. -/
def Q_PE_of (kern : Kernels) (pump Stokes : SimEM) (ac : SimAC) (k_AC : ℚ)
    (p s a : IvalSel) : ℕ → ℕ → ℕ → CC :=
  (if pump.inc_shape_linear then kern.photoelastic_int_v2 else kern.photoelastic_int)
    (peArgsOf pump Stokes ac k_AC (ival_fortran p) (ival_fortran s) (ival_fortran a))

/-- The moving-boundary overlap as computed inside `gain_and_qs`. -/
def Q_MB_of (kern : Kernels) (pump Stokes : SimEM) (ac : SimAC)
    (p s a : IvalSel) (tso : Option ℤ) : ℕ → ℕ → ℕ → CC :=
  kern.moving_boundary (mbArgsOf pump Stokes ac (ival_fortran p) (ival_fortran s) (ival_fortran a)
    (mb_typ_selects (relevant_eps_effs pump.nb_typ_el ac.typ_el_AC pump.n_list) tso).1
    (mb_typ_selects (relevant_eps_effs pump.nb_typ_el ac.typ_el_AC pump.n_list) tso).2)

/-- C1: the gain tensors of `gain_and_qs` satisfy
`gain = 2*omega_EM*Omega_AC*Re(Q*conj(Q))` with `Q = Q_PE + Q_MB` (and the
analogues from `Q_PE`, `Q_MB` alone), the normalization factor is the
product of the three mode powers with `alpha[k]`, the returned tensors are
the real part of `gain/normal_fact`, and in particular `SBS_gain` is not in
general `SBS_gain_PE + SBS_gain_MB` (witnessed by `Q_PE = Q_MB = 1` where
the total is twice the sum). -/
theorem gainAndQs_gain_spec :
    (∀ (kern : Kernels) (pump Stokes : SimEM) (ac : SimAC) (k_AC : ℚ)
       (p s a : IvalSel) (fq : Option ℚ) (tso : Option ℤ),
      ∃ out, gainAndQs kern pump Stokes ac k_AC p s a fq tso false false false
          = ([], Except.ok out) ∧
        (∀ i j k,
          out.SBS_gain i j k
            = (CC.div (CC.ofQ (2 * pump.omega_EM * ac.Omega_AC *
                ((Q_PE_of kern pump Stokes ac k_AC p s a i j k
                    + Q_MB_of kern pump Stokes ac p s a tso i j k)
                  * (Q_PE_of kern pump Stokes ac k_AC p s a i j k
                    + Q_MB_of kern pump Stokes ac p s a tso i j k).conj).re))
              (normal_fact Stokes.num_modes pump.num_modes ac.num_modes
                Stokes.EM_mode_power pump.EM_mode_power ac.AC_mode_power out.alpha i j k)).re ∧
          out.SBS_gain_PE i j k
            = (CC.div (CC.ofQ (2 * pump.omega_EM * ac.Omega_AC *
                (Q_PE_of kern pump Stokes ac k_AC p s a i j k
                  * (Q_PE_of kern pump Stokes ac k_AC p s a i j k).conj).re))
              (normal_fact Stokes.num_modes pump.num_modes ac.num_modes
                Stokes.EM_mode_power pump.EM_mode_power ac.AC_mode_power out.alpha i j k)).re ∧
          out.SBS_gain_MB i j k
            = (CC.div (CC.ofQ (2 * pump.omega_EM * ac.Omega_AC *
                (Q_MB_of kern pump Stokes ac p s a tso i j k
                  * (Q_MB_of kern pump Stokes ac p s a tso i j k).conj).re))
              (normal_fact Stokes.num_modes pump.num_modes ac.num_modes
                Stokes.EM_mode_power pump.EM_mode_power ac.AC_mode_power out.alpha i j k)).re) ∧
        (∀ i j k, i < Stokes.num_modes → j < pump.num_modes → k < ac.num_modes →
          normal_fact Stokes.num_modes pump.num_modes ac.num_modes
              Stokes.EM_mode_power pump.EM_mode_power ac.AC_mode_power out.alpha i j k
            = Stokes.EM_mode_power i * pump.EM_mode_power j * ac.AC_mode_power k
                * CC.ofQ (out.alpha k))) ∧
    (∃ out, (gainAndQs exKern exEM exEM exAC 1 (IvalSel.mode 0) (IvalSel.mode 0)
        (IvalSel.mode 0) (some (1/2)) none false false false).2 = Except.ok out ∧
      out.SBS_gain 0 0 0 = 8 ∧ out.SBS_gain_PE 0 0 0 = 2 ∧ out.SBS_gain_MB 0 0 0 = 2 ∧
      out.SBS_gain 0 0 0 ≠ out.SBS_gain_PE 0 0 0 + out.SBS_gain_MB 0 0 0) := by
  constructor
  · intro kern pump Stokes ac k_AC p s a fq tso
    cases fq <;>
      exact ⟨_, rfl, fun i j k => ⟨rfl, rfl, rfl⟩,
        fun i j k hi hj hk => by simp [normal_fact, hi, hj, hk]⟩
  · refine ⟨_, rfl, ?_, ?_, ?_, ?_⟩
    · norm_num [exKern, exEM, exAC, normal_fact]
    · norm_num [exKern, exEM, exAC, normal_fact]
    · norm_num [exKern, exEM, exAC, normal_fact]
    · norm_num [exKern, exEM, exAC, normal_fact]

theorem CC.cabs_def (z : CC) : z.cabs = Real.sqrt ((z.re : ℝ) ^ 2 + (z.im : ℝ) ^ 2) := rfl

theorem CC.cabs_nonneg (z : CC) : 0 ≤ z.cabs := Real.sqrt_nonneg _

theorem CC.cabs_mk_real (a : ℚ) : CC.cabs ⟨a, 0⟩ = |(a : ℝ)| := by
  rw [CC.cabs_def]
  simp [Real.sqrt_sq_eq_abs]

theorem CC.cabs_one : CC.cabs 1 = 1 := by
  rw [show (1 : CC) = ⟨1, 0⟩ from rfl, CC.cabs_mk_real]
  norm_num

theorem CC.sub_negated (z w : CC) : z - -w = z + w := by
  refine CC.ext_components ?_ ?_ <;> simp

theorem maskedAbsDiffSum_nonneg (Nx Ny : ℕ) (g : MGrid) (t : ℕ → ℕ → CC) :
    0 ≤ maskedAbsDiffSum Nx Ny g t := by
  unfold maskedAbsDiffSum
  refine Finset.sum_nonneg fun ix _ => Finset.sum_nonneg fun iy _ => ?_
  cases h : g ix iy <;> simp [h, CC.cabs_nonneg]

theorem sigma_y_nonneg (Nx Ny : ℕ) (gx gy : MGrid) : 0 ≤ sigma_y Nx Ny gx gy := by
  unfold sigma_y
  exact div_nonneg
    (add_nonneg (maskedAbsDiffSum_nonneg _ _ _ _) (maskedAbsDiffSum_nonneg _ _ _ _))
    (by positivity)

theorem sigma_x_nonneg (Nx Ny : ℕ) (gx gy : MGrid) : 0 ≤ sigma_x Nx Ny gx gy := by
  unfold sigma_x
  exact div_nonneg
    (add_nonneg (maskedAbsDiffSum_nonneg _ _ _ _) (maskedAbsDiffSum_nonneg _ _ _ _))
    (by positivity)

theorem C_2_nonneg (Nx Ny : ℕ) (gx gy : MGrid) : 0 ≤ C_2 Nx Ny gx gy := by
  unfold C_2
  exact div_nonneg
    (add_nonneg (maskedAbsDiffSum_nonneg _ _ _ _) (maskedAbsDiffSum_nonneg _ _ _ _))
    (by positivity)

/-- The masked symmetry-score sum equals the sum over exactly the in-mesh
grid positions. -/
theorem maskedAbsDiffSum_eq_filter (Nx Ny : ℕ) (g : MGrid) (t : ℕ → ℕ → CC) :
    maskedAbsDiffSum Nx Ny g t
      = ∑ p ∈ (Finset.range Nx ×ˢ Finset.range Ny).filter (fun p => (g p.1 p.2).isSome),
          ((g p.1 p.2).getD 0 - t p.1 p.2).cabs := by
  rw [Finset.sum_filter, Finset.sum_product]
  unfold maskedAbsDiffSum
  refine Finset.sum_congr rfl fun ix _ => Finset.sum_congr rfl fun iy _ => ?_
  cases h : g ix iy <;> simp [h]

/-- C5: grid points outside the triangulated mesh are excluded from the
negligible-magnitude check (whose value is a function of the in-mesh value
selection alone) and from all three symmetry-score sums (which range over
exactly the in-mesh positions of the possibly-zeroed component grids), so
the scores are honest nonnegative real numbers. -/
theorem symmetries_masked_spec (thr : ℝ) (Nx Ny : ℕ) (gx gy : MGrid) :
    (∀ (g : MGrid) (t : ℕ → ℕ → CC),
      maskedAbsDiffSum Nx Ny g t
        = ∑ p ∈ (Finset.range Nx ×ˢ Finset.range Ny).filter (fun p => (g p.1 p.2).isSome),
            ((g p.1 p.2).getD 0 - t p.1 p.2).cabs) ∧
    (∀ gx' : MGrid, definedVals Nx Ny gx = definedVals Nx Ny gx' →
      maxAbsDefined Nx Ny gx = maxAbsDefined Nx Ny gx') ∧
    0 ≤ sigma_y Nx Ny (zeroIfNegligible thr Nx Ny gx) (zeroIfNegligible thr Nx Ny gy) ∧
    0 ≤ sigma_x Nx Ny (zeroIfNegligible thr Nx Ny gx) (zeroIfNegligible thr Nx Ny gy) ∧
    0 ≤ C_2 Nx Ny (zeroIfNegligible thr Nx Ny gx) (zeroIfNegligible thr Nx Ny gy) :=
  ⟨fun g t => maskedAbsDiffSum_eq_filter Nx Ny g t,
   fun gx' h => by unfold maxAbsDefined; rw [h],
   sigma_y_nonneg _ _ _ _, sigma_x_nonneg _ _ _ _, C_2_nonneg _ _ _ _⟩

theorem symmetries_masked_spec_witness :
    definedVals 1 1 (fun _ _ => (none : Option CC))
        = definedVals 1 1 (fun ix _ => if 2 ≤ ix then some 1 else none) ∧
    maxAbsDefined 1 1 (fun _ _ => (none : Option CC))
        = maxAbsDefined 1 1 (fun ix _ => if 2 ≤ ix then some 1 else none) :=
  ⟨by decide,
   (symmetries_masked_spec 1 1 1 (fun _ _ => (none : Option CC))
     (fun _ _ => (none : Option CC))).2.1
     (fun ix _ => if 2 ≤ ix then some 1 else none) (by decide)⟩

/-- Congruence of a double sum over the grid extents. -/
theorem sum_guard (Nx Ny : ℕ) (G H : ℕ → ℕ → ℝ)
    (h : ∀ ix iy, ix < Nx → iy < Ny → G ix iy = H ix iy) :
    (∑ ix ∈ Finset.range Nx, ∑ iy ∈ Finset.range Ny, G ix iy)
      = ∑ ix ∈ Finset.range Nx, ∑ iy ∈ Finset.range Ny, H ix iy :=
  Finset.sum_congr rfl fun ix hx => Finset.sum_congr rfl fun iy hy =>
    h ix iy (Finset.mem_range.mp hx) (Finset.mem_range.mp hy)

/-- On a fully-defined grid the masked sum is the plain double sum. -/
theorem maskedAbsDiffSum_total (Nx Ny : ℕ) (f t : ℕ → ℕ → CC) :
    maskedAbsDiffSum Nx Ny (fun ix iy => some (f ix iy)) t
      = ∑ ix ∈ Finset.range Nx, ∑ iy ∈ Finset.range Ny, (f ix iy - t ix iy).cabs := rfl

/-- The label rule of the classifier, rephrased for a nonnegative score:
`score > threshold` gives `-1`, equivalently `score ≤ threshold` gives `+1`. -/
theorem label_flip (c t : ℝ) (hc : 0 ≤ c) :
    (if t < |c| then (-1 : ℤ) else 1) = if c ≤ t then 1 else -1 := by
  rw [abs_of_nonneg hc]
  by_cases h : c ≤ t
  · rw [if_neg (not_lt.mpr h), if_pos h]
  · rw [if_pos (lt_of_not_le h), if_neg h]


/-- C4 (amended): on fully-defined, non-negligible grids, each discrepancy
score is the sum over all grid points of the absolute differences of both
field components against their transformed counterparts (y-mirror: `Ex`
even, `Ey` odd; x-mirror: `Ex` odd, `Ey` even; rotation: both odd),
divided by `n_pts_x*n_pts_y`; a score at most the operation's threshold
(0.1 per mirror, 0.2 for rotation) yields label `+1` and a score strictly
above it yields `-1` (the code tests `score > threshold` for `-1`, so a
score exactly equal to the threshold is labelled `+1`, not `-1`); the
mode's entry in the returned list is the triple
`[C2 label, y-mirror label, x-mirror label]`. -/
theorem modeSymmetry_spec (thr : ℝ) (Nx Ny : ℕ) (fx fy : ℕ → ℕ → CC)
    (h1 : ¬ maxAbsDefined Nx Ny (fun ix iy => some (fx ix iy)) < thr)
    (h2 : ¬ maxAbsDefined Nx Ny (fun ix iy => some (fy ix iy)) < thr) :
    sigma_y Nx Ny (fun ix iy => some (fx ix iy)) (fun ix iy => some (fy ix iy))
      = ((∑ ix ∈ Finset.range Nx, ∑ iy ∈ Finset.range Ny,
            (fx ix iy - fx ix (Ny - iy - 1)).cabs)
          + ∑ ix ∈ Finset.range Nx, ∑ iy ∈ Finset.range Ny,
            (fy ix iy + fy ix (Ny - iy - 1)).cabs) / (Nx * Ny) ∧
    sigma_x Nx Ny (fun ix iy => some (fx ix iy)) (fun ix iy => some (fy ix iy))
      = ((∑ ix ∈ Finset.range Nx, ∑ iy ∈ Finset.range Ny,
            (fx ix iy + fx (Nx - ix - 1) iy).cabs)
          + ∑ ix ∈ Finset.range Nx, ∑ iy ∈ Finset.range Ny,
            (fy ix iy - fy (Nx - ix - 1) iy).cabs) / (Nx * Ny) ∧
    C_2 Nx Ny (fun ix iy => some (fx ix iy)) (fun ix iy => some (fy ix iy))
      = ((∑ ix ∈ Finset.range Nx, ∑ iy ∈ Finset.range Ny,
            (fx ix iy + fx (Nx - ix - 1) (Ny - iy - 1)).cabs)
          + ∑ ix ∈ Finset.range Nx, ∑ iy ∈ Finset.range Ny,
            (fy ix iy + fy (Nx - ix - 1) (Ny - iy - 1)).cabs) / (Nx * Ny) ∧
    modeSymmetry thr Nx Ny (fun ix iy => some (fx ix iy)) (fun ix iy => some (fy ix iy))
      = [if C_2 Nx Ny (fun ix iy => some (fx ix iy)) (fun ix iy => some (fy ix iy)) ≤ 1/5
           then 1 else -1,
         if sigma_y Nx Ny (fun ix iy => some (fx ix iy)) (fun ix iy => some (fy ix iy)) ≤ 1/10
           then 1 else -1,
         if sigma_x Nx Ny (fun ix iy => some (fx ix iy)) (fun ix iy => some (fy ix iy)) ≤ 1/10
           then 1 else -1] ∧
    (∀ (modes : List (MGrid × MGrid)) (i : ℕ),
      (symmetries thr Nx Ny modes)[i]?
        = (modes[i]?).map (fun pr => modeSymmetry thr Nx Ny pr.1 pr.2)) := by
  have hzx : zeroIfNegligible thr Nx Ny (fun ix iy => some (fx ix iy))
      = (fun ix iy => some (fx ix iy)) := by
    unfold zeroIfNegligible; rw [if_neg h1]
  have hzy : zeroIfNegligible thr Nx Ny (fun ix iy => some (fy ix iy))
      = (fun ix iy => some (fy ix iy)) := by
    unfold zeroIfNegligible; rw [if_neg h2]
  have eyx : (∑ ix ∈ Finset.range Nx, ∑ iy ∈ Finset.range Ny,
        (fx ix iy - m_Ex_ymirror Nx Ny (fun ix iy => some (fx ix iy)) ix iy).cabs)
      = ∑ ix ∈ Finset.range Nx, ∑ iy ∈ Finset.range Ny,
        (fx ix iy - fx ix (Ny - iy - 1)).cabs :=
    sum_guard Nx Ny _ _ (fun ix iy hx hy => by
      simp only [m_Ex_ymirror, if_pos (And.intro hx hy), Option.getD_some])
  have eyy : (∑ ix ∈ Finset.range Nx, ∑ iy ∈ Finset.range Ny,
        (fy ix iy - m_Ey_ymirror Nx Ny (fun ix iy => some (fy ix iy)) ix iy).cabs)
      = ∑ ix ∈ Finset.range Nx, ∑ iy ∈ Finset.range Ny,
        (fy ix iy + fy ix (Ny - iy - 1)).cabs :=
    sum_guard Nx Ny _ _ (fun ix iy hx hy => by
      simp only [m_Ey_ymirror, if_pos (And.intro hx hy), Option.getD_some, CC.sub_negated])
  have exx : (∑ ix ∈ Finset.range Nx, ∑ iy ∈ Finset.range Ny,
        (fx ix iy - m_Ex_xmirror Nx Ny (fun ix iy => some (fx ix iy)) ix iy).cabs)
      = ∑ ix ∈ Finset.range Nx, ∑ iy ∈ Finset.range Ny,
        (fx ix iy + fx (Nx - ix - 1) iy).cabs :=
    sum_guard Nx Ny _ _ (fun ix iy hx hy => by
      simp only [m_Ex_xmirror, if_pos (And.intro hx hy), Option.getD_some, CC.sub_negated])
  have exy : (∑ ix ∈ Finset.range Nx, ∑ iy ∈ Finset.range Ny,
        (fy ix iy - m_Ey_xmirror Nx Ny (fun ix iy => some (fy ix iy)) ix iy).cabs)
      = ∑ ix ∈ Finset.range Nx, ∑ iy ∈ Finset.range Ny,
        (fy ix iy - fy (Nx - ix - 1) iy).cabs :=
    sum_guard Nx Ny _ _ (fun ix iy hx hy => by
      simp only [m_Ey_xmirror, if_pos (And.intro hx hy), Option.getD_some])
  have erx : (∑ ix ∈ Finset.range Nx, ∑ iy ∈ Finset.range Ny,
        (fx ix iy - m_Ex_rotated Nx Ny (fun ix iy => some (fx ix iy)) ix iy).cabs)
      = ∑ ix ∈ Finset.range Nx, ∑ iy ∈ Finset.range Ny,
        (fx ix iy + fx (Nx - ix - 1) (Ny - iy - 1)).cabs :=
    sum_guard Nx Ny _ _ (fun ix iy hx hy => by
      simp only [m_Ex_rotated, if_pos (And.intro hx hy), Option.getD_some, CC.sub_negated])
  have ery : (∑ ix ∈ Finset.range Nx, ∑ iy ∈ Finset.range Ny,
        (fy ix iy - m_Ey_rotated Nx Ny (fun ix iy => some (fy ix iy)) ix iy).cabs)
      = ∑ ix ∈ Finset.range Nx, ∑ iy ∈ Finset.range Ny,
        (fy ix iy + fy (Nx - ix - 1) (Ny - iy - 1)).cabs :=
    sum_guard Nx Ny _ _ (fun ix iy hx hy => by
      simp only [m_Ey_rotated, if_pos (And.intro hx hy), Option.getD_some, CC.sub_negated])
  refine ⟨?_, ?_, ?_, ?_, ?_⟩
  · unfold sigma_y
    rw [maskedAbsDiffSum_total, maskedAbsDiffSum_total, eyx, eyy]
  · unfold sigma_x
    rw [maskedAbsDiffSum_total, maskedAbsDiffSum_total, exx, exy]
  · unfold C_2
    rw [maskedAbsDiffSum_total, maskedAbsDiffSum_total, erx, ery]
  · unfold modeSymmetry
    rw [hzx, hzy, label_flip _ _ (C_2_nonneg _ _ _ _), label_flip _ _ (sigma_y_nonneg _ _ _ _),
      label_flip _ _ (sigma_x_nonneg _ _ _ _)]
  · intro modes i
    simp [symmetries]

/-- A constant unit field used to instantiate the classifier spec. -/
def cexF : ℕ → ℕ → CC := fun _ _ => ⟨1, 0⟩

theorem modeSymmetry_spec_witness :
    (¬ maxAbsDefined 1 1 (fun ix iy => some (cexF ix iy)) < 1/100000) ∧
    modeSymmetry (1/100000) 1 1 (fun ix iy => some (cexF ix iy)) (fun ix iy => some (cexF ix iy))
      = [if C_2 1 1 (fun ix iy => some (cexF ix iy)) (fun ix iy => some (cexF ix iy)) ≤ 1/5
           then 1 else -1,
         if sigma_y 1 1 (fun ix iy => some (cexF ix iy)) (fun ix iy => some (cexF ix iy)) ≤ 1/10
           then 1 else -1,
         if sigma_x 1 1 (fun ix iy => some (cexF ix iy)) (fun ix iy => some (cexF ix iy)) ≤ 1/10
           then 1 else -1] := by
  have h : ¬ maxAbsDefined 1 1 (fun ix iy => some (cexF ix iy)) < 1/100000 := by
    have e : maxAbsDefined 1 1 (fun ix iy => some (cexF ix iy)) = max 0 (CC.cabs ⟨1, 0⟩) := rfl
    rw [e, CC.cabs_mk_real]
    rw [max_eq_right (abs_nonneg _)]
    push_cast
    rw [abs_one]
    norm_num
  exact ⟨h, (modeSymmetry_spec (1/100000) 1 1 cexF cexF h h).2.2.2.1⟩

/-- The grids of the threshold counterexample: a constant unit
x-component and a constant `1/20` y-component on a 1-by-1 grid, giving a
y-mirror score of exactly `0.1`. -/
def cexGx : MGrid := fun _ _ => some ⟨1, 0⟩

def cexGy : MGrid := fun _ _ => some ⟨1/20, 0⟩

/-- C4 counterexample: the y-mirror discrepancy score is exactly the
mirror threshold `0.1`, which is not below the threshold, yet the code
labels the mode `+1` (middle entry of the triple), while the claim's
"a score below the threshold yields +1, otherwise -1" demands `-1`. -/
theorem modeSymmetry_threshold_counterexample :
    sigma_y 1 1 cexGx cexGy = 1/10 ∧
    ¬ sigma_y 1 1 cexGx cexGy < 1/10 ∧
    modeSymmetry (1/100000) 1 1 cexGx cexGy = [-1, 1, -1] := by
  have d1 : ((⟨1, 0⟩ : CC) - ⟨1, 0⟩) = ⟨0, 0⟩ := by
    refine CC.ext_components ?_ ?_ <;> norm_num
  have d2 : ((⟨1/20, 0⟩ : CC) - -⟨1/20, 0⟩) = ⟨1/10, 0⟩ := by
    refine CC.ext_components ?_ ?_ <;> norm_num
  have d3 : ((⟨1, 0⟩ : CC) - -⟨1, 0⟩) = ⟨2, 0⟩ := by
    refine CC.ext_components ?_ ?_ <;> norm_num
  have d4 : ((⟨1/20, 0⟩ : CC) - ⟨1/20, 0⟩) = ⟨0, 0⟩ := by
    refine CC.ext_components ?_ ?_ <;> norm_num
  have hsy : sigma_y 1 1 cexGx cexGy = 1/10 := by
    unfold sigma_y maskedAbsDiffSum
    simp only [Finset.sum_range_one, cexGx, cexGy, m_Ex_ymirror, m_Ey_ymirror]
    norm_num [d1, d2, CC.cabs_mk_real]
  have hsx : sigma_x 1 1 cexGx cexGy = 2 := by
    unfold sigma_x maskedAbsDiffSum
    simp only [Finset.sum_range_one, cexGx, cexGy, m_Ex_xmirror, m_Ey_xmirror]
    norm_num [d3, d4, CC.cabs_mk_real]
  have hc2 : C_2 1 1 cexGx cexGy = 21/10 := by
    unfold C_2 maskedAbsDiffSum
    simp only [Finset.sum_range_one, cexGx, cexGy, m_Ex_rotated, m_Ey_rotated]
    norm_num [d2, d3, CC.cabs_mk_real]
    rw [abs_of_nonneg] <;> norm_num
  have hzx : zeroIfNegligible (1/100000) 1 1 cexGx = cexGx := by
    have e : maxAbsDefined 1 1 cexGx = max 0 (CC.cabs ⟨1, 0⟩) := rfl
    unfold zeroIfNegligible
    rw [if_neg]
    rw [e, CC.cabs_mk_real, max_eq_right (abs_nonneg _)]
    push_cast
    rw [abs_one]
    norm_num
  have hzy : zeroIfNegligible (1/100000) 1 1 cexGy = cexGy := by
    have e : maxAbsDefined 1 1 cexGy = max 0 (CC.cabs ⟨1/20, 0⟩) := rfl
    unfold zeroIfNegligible
    rw [if_neg]
    rw [e, CC.cabs_mk_real, max_eq_right (abs_nonneg _)]
    rw [show |((1/20 : ℚ) : ℝ)| = 1/20 by rw [abs_of_nonneg] <;> norm_num]
    norm_num
  refine ⟨hsy, by rw [hsy]; exact lt_irrefl _, ?_⟩
  unfold modeSymmetry
  rw [hzx, hzy, hc2, hsy, hsx,
    show |(21/10 : ℝ)| = 21/10 from abs_of_nonneg (by norm_num),
    show |(1/10 : ℝ)| = 1/10 from abs_of_nonneg (by norm_num),
    show |(2 : ℝ)| = 2 from abs_of_nonneg (by norm_num)]
  norm_num

theorem gainAndQs_gain_spec_witness :
    ((0 : ℕ) < exEM.num_modes ∧ (0 : ℕ) < exAC.num_modes) ∧
    ∃ out, gainAndQs exKern exEM exEM exAC 1 (IvalSel.mode 0) (IvalSel.mode 0) (IvalSel.mode 0)
        (some (1/2)) none false false false = ([], Except.ok out) ∧
      normal_fact exEM.num_modes exEM.num_modes exAC.num_modes
          exEM.EM_mode_power exEM.EM_mode_power exAC.AC_mode_power out.alpha 0 0 0
        = exEM.EM_mode_power 0 * exEM.EM_mode_power 0 * exAC.AC_mode_power 0
            * CC.ofQ (out.alpha 0) := by
  have hm : (0 : ℕ) < exEM.num_modes := by norm_num [exEM]
  have hk : (0 : ℕ) < exAC.num_modes := by norm_num [exAC]
  obtain ⟨out, h1, _, h3⟩ := gainAndQs_gain_spec.1 exKern exEM exEM exAC 1 (IvalSel.mode 0)
    (IvalSel.mode 0) (IvalSel.mode 0) (some (1/2)) none
  exact ⟨⟨hm, hk⟩, out, h1, h3 0 0 0 hm hm hk⟩
